import Mathlib

/-!
Verification of the blog content-resolution core (blog.rs).

Strings are modelled as `List Char`; timestamps (`DateTime<Utc>`) as `Int`.
External effects are modelled as explicit parameters:
a filesystem `fs : List Char → Option (List Char)` (path to contents,
`none` meaning the file is missing or unreadable), a network
`net : List Char → Except (List Char) (List Char)` (url to body or
transport error), a JSON manifest decoder
`parse : List Char → Option (List Registry)`, a markdown renderer and
date formatters. Rust panics (`unwrap`, `assert!`) are modelled by an
outer `Option` layer: `none` means the program aborts.
-/

namespace BlogRust

/-- ASCII letter test, the character class `[a-zA-Z]` of the regex in `to_slug`. -/
def isAsciiLetter (c : Char) : Bool :=
  (65 ≤ c.toNat && c.toNat ≤ 90) || (97 ≤ c.toNat && c.toNat ≤ 122)

/-- Lowercase ASCII letter test. -/
def isLowerAlpha (c : Char) : Bool :=
  97 ≤ c.toNat && c.toNat ≤ 122

/-- The Unicode White_Space property, which Rust `str::trim` strips from both ends. -/
def isUnicodeWhitespace (c : Char) : Bool :=
  decide (c.toNat ∈ ([9, 10, 11, 12, 13, 32, 133, 160, 5760,
    8192, 8193, 8194, 8195, 8196, 8197, 8198, 8199, 8200, 8201, 8202,
    8232, 8233, 8239, 8287, 12288] : List Nat))

/-- Drop the characters satisfying `p` from the front, then from the back:
the common shape of Rust `str::trim` and `str::trim_matches`. -/
def trimBy (p : Char → Bool) (l : List Char) : List Char :=
  ((l.dropWhile p).reverse.dropWhile p).reverse

/-- Rust `str::trim`: drop whitespace from the front, then from the back. -/
def trimWs (l : List Char) : List Char :=
  trimBy isUnicodeWhitespace l

/-- Rust `str::trim_matches(t)`: drop the character `t` from the front, then from the back. -/
def trimChar (t : Char) (l : List Char) : List Char :=
  trimBy (fun c => c == t) l

/-- The regex `replace_all` of `[^a-zA-Z]+` by a hyphen, written as a
left-to-right scan; the flag records whether we are inside a run of
non-letters for which a hyphen has already been emitted. -/
def collapseAux : Bool → List Char → List Char
  | _, [] => []
  | inRun, c :: rest =>
    if isAsciiLetter c then c :: collapseAux false rest
    else if inRun then collapseAux true rest
    else '-' :: collapseAux true rest

/-- Replace every maximal run of non-letters by a single hyphen. -/
def collapseRuns (l : List Char) : List Char :=
  collapseAux false l

/-- The function `to_slug` of blog.rs: trim whitespace, replace each maximal
run of non-ASCII-letters by a hyphen, trim hyphens, lowercase. `Char.toLower`
is exactly Rust `to_ascii_lowercase` (it only moves the codepoints 65..90 up by 32). -/
def to_slug (raw : List Char) : List Char :=
  (trimChar '-' (collapseRuns (trimWs raw))).map Char.toLower

/-- The derived `Post` record of blog.rs. -/
structure Post where
  slug : List Char
  title : List Char
  path : List Char
  hidden : Bool
  updated : Int
deriving DecidableEq

/-- The manifest entry `Registry` of blog.rs. -/
structure Registry where
  title : List Char
  markdown : List Char
  hidden : Bool
  updated : Int
deriving DecidableEq

/-- The function `to_posts` of blog.rs: map each `Registry` to a `Post`
(computing the slug from the title) and reverse the order. -/
def to_posts (registries : List Registry) : List Post :=
  (registries.map (fun r =>
    { title := r.title
      slug := to_slug r.title
      path := r.markdown
      hidden := r.hidden
      updated := r.updated : Post })).reverse

/-- The search predicate of `find_post_for_slug` in blog.rs: the post slug
equals the requested slug, or the post path equals the requested slug
followed by the extension. -/
def matchesSlug (s : List Char) (p : Post) : Bool :=
  p.slug == s || p.path == (s ++ ".md".toList)

/-- The function `find_post_for_slug` of blog.rs. `none` models a panic:
the `assert!` on an empty list, or the final `unwrap` when no post
matches and every post is hidden. -/
def find_post_for_slug (posts : List Post) (slug_to_find : List Char) : Option Post :=
  if posts.length = 0 then none
  else
    match posts.find? (matchesSlug slug_to_find) with
    | some p => some p
    | none => (posts.filter (fun p => !p.hidden)).head?

/-- The view model `Blog` of blog.rs. -/
structure Blog where
  current_post : Post
  content : List Char
  date_updated : List Char
  see_also : List (List Char × List Char)
deriving DecidableEq

/-- The function `make_blog` of blog.rs, with the markdown renderer and the
date formatter passed in as parameters. -/
def make_blog (render : List Char → List Char) (fmt : Int → List Char)
    (current_post : Post) (all_posts : List Post) (markdown : List Char) : Blog :=
  { current_post := current_post
    content := render markdown
    see_also := (all_posts.filter
        (fun p => !p.hidden && p.title != current_post.title)).map
      (fun p => (p.title, to_slug p.title))
    date_updated := fmt current_post.updated }

/-- The `LocalSource` of blog.rs: a configured directory. -/
structure LocalSource where
  directory : List Char
deriving DecidableEq

/-- The `GithubSource` of blog.rs: a base url. -/
structure GithubSource where
  base_url : List Char
deriving DecidableEq

/-- Path or url joining with a slash, for `directory.join(p)` and the
`format!` of `base_url` with a path. -/
def pathJoin (dir p : List Char) : List Char :=
  dir ++ '/' :: p

/-- The method `LocalSource::get_manifest` of blog.rs. The source calls
`unwrap` on the file read and on the JSON decode, so a missing file or a
malformed manifest aborts (`none`); on success it returns `Ok(manifest)`.
It never produces an `Err`. -/
def LocalSource.get_manifest (src : LocalSource)
    (fs : List Char → Option (List Char))
    (parse : List Char → Option (List Registry)) :
    Option (Except (List Char) (List Registry)) :=
  match fs (pathJoin src.directory "manifest.json".toList) with
  | none => none
  | some raw =>
    match parse raw with
    | none => none
    | some manifest => some (Except.ok manifest)

/-- The method `LocalSource::read_content` of blog.rs: a failed file read
is mapped to an error string, so it never panics. -/
def LocalSource.read_content (src : LocalSource)
    (fs : List Char → Option (List Char)) (p : List Char) :
    Except (List Char) (List Char) :=
  match fs (pathJoin src.directory p) with
  | none => Except.error "Cannot read markdown".toList
  | some s => Except.ok s

/-- The method `GithubSource::get_manifest` of blog.rs: a transport error
or a decode error is mapped to an error string. -/
def GithubSource.get_manifest (src : GithubSource)
    (net : List Char → Except (List Char) (List Char))
    (parse : List Char → Option (List Registry)) :
    Except (List Char) (List Registry) :=
  match net (pathJoin src.base_url "manifest.json".toList) with
  | Except.error _ => Except.error "Cannot read remote manifest".toList
  | Except.ok body =>
    match parse body with
    | none => Except.error "Cannot deserialize response".toList
    | some manifest => Except.ok manifest

/-- The function `load_all_posts_remote` of blog.rs. -/
def load_all_posts_remote (src : GithubSource)
    (net : List Char → Except (List Char) (List Char))
    (parse : List Char → Option (List Registry)) :
    Except (List Char) (List Post) :=
  match GithubSource.get_manifest src net parse with
  | Except.error _ => Except.error "Loading manifest failed".toList
  | Except.ok manifest => Except.ok (to_posts manifest)

/-- The function `load_all_posts_local` of blog.rs: `get_manifest` mapped
over by `to_posts`; the panic of `get_manifest` propagates. -/
def load_all_posts_local (src : LocalSource)
    (fs : List Char → Option (List Char))
    (parse : List Char → Option (List Registry)) :
    Option (Except (List Char) (List Post)) :=
  match LocalSource.get_manifest src fs parse with
  | none => none
  | some r => some (r.map to_posts)

/-- An item of the feed channel built by `build_rss`. -/
structure RssItem where
  title : List Char
  link : List Char
  pub_date : List Char
deriving DecidableEq

/-- The feed channel built by `build_rss`. -/
structure RssChannel where
  title : List Char
  link : List Char
  description : List Char
  items : List RssItem
  pub_date : List Char
deriving DecidableEq

/-- The host name constant of `build_rss`. -/
def host_name : List Char := "https://hacklewayne.com".toList

/-- The channel-building closure inside `build_rss` of blog.rs, with the
rfc2822 date formatter passed in. `posts.first().unwrap()` panics on an
empty collection (`none`). -/
def build_channel (rfc : Int → List Char) (posts : List Post) : Option RssChannel :=
  match posts.head? with
  | none => none
  | some first =>
    some { title := "Hackle\x27s blog".toList
           link := host_name
           description := "Hackle Wayne\x27s blog about many nerdy things".toList
           items := posts.map (fun post =>
             { title := post.title
               link := pathJoin host_name post.slug
               pub_date := rfc post.updated : RssItem })
           pub_date := rfc first.updated }

/-- The function `build_rss` of blog.rs: try the remote load when a remote
url is configured, fall back to the local load on any failure by
`or_else`, then build the channel. -/
def build_rss (remote_url : Except (List Char) (List Char))
    (net : List Char → Except (List Char) (List Char))
    (lsrc : LocalSource)
    (fs : List Char → Option (List Char))
    (parse : List Char → Option (List Registry))
    (rfc : Int → List Char) :
    Option (Except (List Char) RssChannel) :=
  let attempt : Except (List Char) (List Post) :=
    match remote_url with
    | Except.ok u => load_all_posts_remote ⟨u⟩ net parse
    | Except.error e => Except.error e
  let all_posts : Option (Except (List Char) (List Post)) :=
    match attempt with
    | Except.ok ps => some (Except.ok ps)
    | Except.error _ => load_all_posts_local lsrc fs parse
  match all_posts with
  | none => none
  | some (Except.error e) => some (Except.error e)
  | some (Except.ok posts) =>
    match build_channel rfc posts with
    | none => none
    | some channel => some (Except.ok channel)

/-- The character class replacement of the spec wording: keep ASCII
letters, turn every other character into a hyphen. -/
def dashify (c : Char) : Char :=
  if isAsciiLetter c then c else '-'

/-- Collapse every run of consecutive hyphens into a single hyphen. -/
def dedupDash : List Char → List Char
  | [] => []
  | [c] => [c]
  | c₁ :: c₂ :: rest =>
    if c₁ == '-' && c₂ == '-' then dedupDash (c₂ :: rest)
    else c₁ :: dedupDash (c₂ :: rest)

/-- The slug algorithm as the spec words it: trim surrounding whitespace,
replace every maximal run of non-ASCII-letter characters with a single
hyphen (map to hyphens, then merge runs), trim hyphens, lowercase. -/
def slug_spec (raw : List Char) : List Char :=
  (trimChar '-' (dedupDash ((trimWs raw).map dashify))).map Char.toLower

/-- No two adjacent hyphens occur in the list. -/
def noDD : List Char → Bool
  | c₁ :: c₂ :: rest => !(c₁ == '-' && c₂ == '-') && noDD (c₂ :: rest)
  | _ => true

/-- A concrete post whose path collides with the slug of another post. -/
def postA : Post :=
  { slug := "b".toList, title := "B".toList, path := "a.md".toList,
    hidden := false, updated := 0 }

/-- A concrete post whose slug is the string a. -/
def postB : Post :=
  { slug := "a".toList, title := "A".toList, path := "b.md".toList,
    hidden := false, updated := 1 }

/-- A concrete hidden post. -/
def hiddenPost : Post :=
  { slug := "h".toList, title := "H".toList, path := "h.md".toList,
    hidden := true, updated := 0 }

/-- A concrete local source configuration. -/
def localEx : LocalSource := ⟨"raw".toList⟩

/-- An empty filesystem: every read fails. -/
def fsEmpty : List Char → Option (List Char) := fun _ => none

/-- A manifest decoder that rejects every payload. -/
def parseNone : List Char → Option (List Registry) := fun _ => none

/-- The outcome of the full local feed chain of build_rss: load the local
manifest (panicking if the file is missing or malformed) and build the
channel from the local posts. -/
def localFeedOutcome (lsrc : LocalSource)
    (fs : List Char → Option (List Char))
    (parse : List Char → Option (List Registry))
    (rfc : Int → List Char) : Option (Except (List Char) RssChannel) :=
  match load_all_posts_local lsrc fs parse with
  | none => none
  | some (Except.error e) => some (Except.error e)
  | some (Except.ok posts) =>
    match build_channel rfc posts with
    | none => none
    | some channel => some (Except.ok channel)

/-- A concrete registry entry. -/
def regEx : Registry :=
  { title := "Types and tests".toList, markdown := "types-and-tests.md".toList,
    hidden := false, updated := 5 }

/-- The see-also list as the spec words it: all posts excluding the current
one and excluding hidden posts, in collection order, projected to
(title, slug) pairs. -/
def see_also_spec (current : Post) (all_posts : List Post) :
    List (List Char × List Char) :=
  (all_posts.filter
      (fun p => decide (p.hidden = false ∧ p.title ≠ current.title))).map
    (fun p => (p.title, p.slug))

example : to_slug " A B C D".toList = "a-b-c-d".toList := by decide
example : to_slug "but, we shall see!".toList = "but-we-shall-see".toList := by decide
example : to_slug "Great_is not bad".toList = "great-is-not-bad".toList := by decide
example : to_slug " A  D".toList = "a-d".toList := by decide
example : to_slug "slug-slug".toList = "slug-slug".toList := by decide
example : slug_spec " A B C D".toList = "a-b-c-d".toList := by decide
example : slug_spec "but, we shall see!".toList = "but-we-shall-see".toList := by decide

/-- On a list, `find?` returns the element at the first index satisfying
the predicate. -/
theorem find?_first_match {α : Type} (l : List α) (p : α → Bool)
    (i : Nat) (hi : i < l.length) (hp : p (l.get ⟨i, hi⟩) = true)
    (hfirst : ∀ j (hj : j < l.length), j < i → p (l.get ⟨j, hj⟩) = false) :
    l.find? p = some (l.get ⟨i, hi⟩) := by
  induction l generalizing i with
  | nil => exact absurd hi (by simp)
  | cons a t ih =>
    cases i with
    | zero =>
      simp only [List.get] at hp
      rw [List.find?_cons_of_pos _ hp]
      rfl
    | succ n =>
      have pa : p a = false := by
        have h0 := hfirst 0 (by simp) (by omega)
        simpa using h0
      rw [List.find?_cons_of_neg _ (by simp [pa])]
      have hi2 : n < t.length := by simpa using hi
      have hrec := ih n hi2 (by simpa using hp) (fun j hj hlt => by
        have hstep := hfirst (j + 1) (by simpa using hj) (by omega)
        simpa using hstep)
      simpa using hrec

/-- Claim C1 counterexample: with a first post whose content reference is
a.md and a second post whose slug is a, requesting the slug a returns the
FIRST post via the content-reference disjunct, even though the second
post matches by slug — the code does not prioritise slug matches. -/
theorem find_post_slug_priority_cex :
    find_post_for_slug [postA, postB] "a".toList = some postA ∧
    postB.slug = "a".toList ∧ postA.slug ≠ "a".toList := by decide

/-- Claim C1 (amended): the resolver scans the posts once, left to right,
and returns the first post satisfying the disjunction (slug equals the
requested slug, or content reference equals the requested slug followed
by .md); a slug match on a later post does not take priority over a
content-reference match on an earlier post. -/
theorem find_post_first_match (posts : List Post) (s : List Char)
    (i : Nat) (hi : i < posts.length)
    (hp : matchesSlug s (posts.get ⟨i, hi⟩) = true)
    (hfirst : ∀ j (hj : j < posts.length), j < i →
      matchesSlug s (posts.get ⟨j, hj⟩) = false) :
    find_post_for_slug posts s = some (posts.get ⟨i, hi⟩) := by
  unfold find_post_for_slug
  rw [if_neg (by omega), find?_first_match posts _ i hi hp hfirst]

/-- Witness for the amended claim C1 at a concrete input. -/
theorem find_post_first_match_witness :
    find_post_for_slug [postA, postB] "b".toList = some postA := by
  have h := find_post_first_match [postA, postB] "b".toList 0 (by decide)
    (by decide) (fun j hj hlt => absurd hlt (by omega))
  exact h

/-- On a list, a `head?` of the filtered list is the element at the first
index satisfying the predicate. -/
theorem filter_head?_first {α : Type} (l : List α) (q : α → Bool) (a : α)
    (h : (l.filter q).head? = some a) :
    q a = true ∧ ∃ i, ∃ hi : i < l.length, l.get ⟨i, hi⟩ = a ∧
      ∀ j (hj : j < l.length), j < i → q (l.get ⟨j, hj⟩) = false := by
  induction l with
  | nil => simp [List.filter] at h
  | cons x t ih =>
    rw [List.filter_cons] at h
    by_cases hqx : q x = true
    · rw [if_pos hqx] at h
      simp only [List.head?_cons, Option.some.injEq] at h
      subst h
      exact ⟨hqx, 0, by simp, rfl, fun j hj hlt => absurd hlt (by omega)⟩
    · rw [if_neg hqx] at h
      obtain ⟨hqa, i, hi, hget, hearlier⟩ := ih h
      refine ⟨hqa, i + 1, by simpa using hi, hget, ?_⟩
      intro j hj hlt
      cases j with
      | zero => exact Bool.eq_false_iff.mpr hqx
      | succ m =>
        have hm : m < t.length := by simpa using hj
        exact hearlier m hm (by omega)

/-- Claim C4 counterexample: a one-element collection whose only post is
hidden and matches nothing: the claim says the resolver returns the first
post with hidden = false, but no such post exists and the code panics
(modelled as `none`). -/
theorem find_post_fallback_cex :
    find_post_for_slug [hiddenPost] "zzz".toList = none := by decide

/-- Claim C4 (amended): when no post matches the requested slug by slug or
by content reference, the resolver returns the head of the non-hidden
posts — the first post with hidden = false in sequence order — and never
a hidden post; when every post is hidden it panics instead of returning. -/
theorem find_post_fallback (posts : List Post) (s : List Char)
    (hnone : ∀ p ∈ posts, matchesSlug s p = false) :
    find_post_for_slug posts s = (posts.filter (fun p => !p.hidden)).head? ∧
    ∀ p, (posts.filter (fun p => !p.hidden)).head? = some p →
      p.hidden = false ∧ ∃ i, ∃ hi : i < posts.length, posts.get ⟨i, hi⟩ = p ∧
        ∀ j (hj : j < posts.length), j < i → (posts.get ⟨j, hj⟩).hidden = true := by
  constructor
  · unfold find_post_for_slug
    cases hlen : posts.length with
    | zero =>
      rw [if_pos rfl]
      have : posts = [] := List.length_eq_zero.mp hlen
      subst this
      rfl
    | succ n =>
      rw [if_neg (by omega)]
      have hfind : posts.find? (matchesSlug s) = none :=
        List.find?_eq_none.mpr (fun x hx => by simp [hnone x hx])
      rw [hfind]
  · intro p hp
    obtain ⟨hq, i, hi, hget, hearlier⟩ :=
      filter_head?_first posts (fun p => !p.hidden) p hp
    refine ⟨by simpa using hq, i, hi, hget, fun j hj hlt => ?_⟩
    have := hearlier j hj hlt
    simpa using this

/-- Witness for the amended claim C4 at a concrete input. -/
theorem find_post_fallback_witness :
    find_post_for_slug [hiddenPost, postB] "zzz".toList =
      ([hiddenPost, postB].filter (fun p => !p.hidden)).head? :=
  (find_post_fallback [hiddenPost, postB] "zzz".toList (by decide)).1

/-- Claim C10: the resolver is total on collections containing at least one
non-hidden post — for every requested slug it returns a post; but on a
non-empty all-hidden collection where nothing matches, it panics
(modelled as `none`) instead of returning a post. -/
theorem find_post_totality :
    (∀ (posts : List Post) (s : List Char), posts ≠ [] →
      (∃ p ∈ posts, p.hidden = false) →
      (find_post_for_slug posts s).isSome = true) ∧
    find_post_for_slug [hiddenPost] "abc".toList = none := by
  constructor
  · intro posts s hne ⟨p, hmem, hph⟩
    unfold find_post_for_slug
    rw [if_neg (fun hc => hne (List.length_eq_zero.mp hc))]
    cases hfind : posts.find? (matchesSlug s) with
    | some q => rfl
    | none =>
      have hmemf : p ∈ posts.filter (fun p => !p.hidden) :=
        List.mem_filter.mpr ⟨hmem, by simp [hph]⟩
      cases hfl : posts.filter (fun p => !p.hidden) with
      | nil => rw [hfl] at hmemf; exact absurd hmemf (by simp)
      | cons a t => rfl
  · decide

/-- Witness for claim C10 at a concrete input. -/
theorem find_post_totality_witness :
    (find_post_for_slug [postA] "zzz".toList).isSome = true :=
  find_post_totality.1 [postA] "zzz".toList (by decide)
    ⟨postA, by decide, by decide⟩

/-- Claim C2 counterexample: on a filesystem where the manifest file is
missing, the Local get_manifest aborts (panics on `unwrap`), modelled as
`none`; it does not return an error result to the caller. -/
theorem local_get_manifest_cex :
    LocalSource.get_manifest localEx fsEmpty parseNone = none := rfl

/-- Claim C2 (amended): the Local get_manifest never returns an error
result — when the manifest file is missing or its payload unreadable it
aborts (panics) — while read_content does return an error result when the
content file at directory/ref is missing, and the file contents on
success. -/
theorem local_source_error_behaviour (src : LocalSource)
    (fs : List Char → Option (List Char))
    (parse : List Char → Option (List Registry)) :
    (∀ e, LocalSource.get_manifest src fs parse ≠ some (Except.error e)) ∧
    (fs (pathJoin src.directory "manifest.json".toList) = none →
      LocalSource.get_manifest src fs parse = none) ∧
    (∀ p, fs (pathJoin src.directory p) = none →
      LocalSource.read_content src fs p =
        Except.error "Cannot read markdown".toList) ∧
    (∀ p s, fs (pathJoin src.directory p) = some s →
      LocalSource.read_content src fs p = Except.ok s) := by
  refine ⟨?_, ?_, ?_, ?_⟩
  · intro e hc
    unfold LocalSource.get_manifest at hc
    split at hc
    · cases hc
    · split at hc
      · cases hc
      · simp at hc
  · intro hread
    unfold LocalSource.get_manifest
    rw [hread]
  · intro p hread
    unfold LocalSource.read_content
    rw [hread]
  · intro p s hread
    unfold LocalSource.read_content
    rw [hread]

/-- Witness for the amended claim C2 at a concrete input. -/
theorem local_source_error_behaviour_witness :
    LocalSource.read_content localEx fsEmpty "a.md".toList =
      Except.error "Cannot read markdown".toList :=
  (local_source_error_behaviour localEx fsEmpty parseNone).2.2.1 "a.md".toList rfl

/-- Claim C3 counterexample: remote endpoint configured but failing at
transport, local manifest missing — both manifest loads fail, yet
build_rss does not return an error: it aborts (panics inside the local
load), modelled as `none`. -/
theorem build_rss_both_fail_cex :
    build_rss (Except.ok "http://x".toList) (fun _ => Except.error [])
      localEx fsEmpty parseNone (fun _ => []) = none := rfl

/-- Claim C3 (amended): build_rss attempts the remote manifest load exactly
when a remote endpoint is configured and uses its posts on success
without touching the local source; on a missing remote configuration or
any remote failure the full local chain is authoritative, so no remote
error is ever surfaced; but build_rss never returns an error result at
all — when the local manifest load fails it aborts (panics) instead. -/
theorem build_rss_fallback (remote_url : Except (List Char) (List Char))
    (net : List Char → Except (List Char) (List Char))
    (lsrc : LocalSource) (fs : List Char → Option (List Char))
    (parse : List Char → Option (List Registry)) (rfc : Int → List Char) :
    (∀ u ps, remote_url = Except.ok u →
      load_all_posts_remote ⟨u⟩ net parse = Except.ok ps →
      build_rss remote_url net lsrc fs parse rfc =
        match build_channel rfc ps with
        | none => none
        | some channel => some (Except.ok channel)) ∧
    (∀ u e, remote_url = Except.ok u →
      load_all_posts_remote ⟨u⟩ net parse = Except.error e →
      build_rss remote_url net lsrc fs parse rfc =
        localFeedOutcome lsrc fs parse rfc) ∧
    (∀ e, remote_url = Except.error e →
      build_rss remote_url net lsrc fs parse rfc =
        localFeedOutcome lsrc fs parse rfc) ∧
    (∀ e, build_rss remote_url net lsrc fs parse rfc ≠
      some (Except.error e)) := by
  refine ⟨?_, ?_, ?_, ?_⟩
  · intro u ps hurl hload
    subst hurl
    simp only [build_rss, hload]
  · intro u e hurl hload
    subst hurl
    simp only [build_rss, localFeedOutcome, hload]
  · intro e hurl
    subst hurl
    simp only [build_rss, localFeedOutcome]
  · intro e hc
    simp only [build_rss] at hc
    split at hc
    · cases hc
    · -- the branch yielding some (error _): impossible, the local load never errs
      rename_i aposts e2 heq
      split at heq
      · simp at heq
      · unfold load_all_posts_local at heq
        split at heq
        · cases heq
        · rename_i r hr
          unfold LocalSource.get_manifest at hr
          split at hr
          · cases hr
          · split at hr
            · cases hr
            · cases hr
              simp [Except.map] at heq
    · split at hc
      · cases hc
      · simp at hc

/-- Witness for the amended claim C3 at a concrete input. -/
theorem build_rss_fallback_witness :
    build_rss (Except.error "remote url not set".toList)
        (fun _ => Except.error []) localEx fsEmpty parseNone (fun _ => []) =
      localFeedOutcome localEx fsEmpty parseNone (fun _ => []) :=
  (build_rss_fallback (Except.error "remote url not set".toList)
    (fun _ => Except.error []) localEx fsEmpty parseNone (fun _ => [])).2.2.1
    "remote url not set".toList rfl

/-- Claim C7: the derived post sequence is the registration list mapped to
posts and then reversed, so registrations listed last appear first; every
derived post has its slug computed from its title, and hidden and updated
copied unchanged from the registration. -/
theorem to_posts_spec (rs : List Registry) :
    (to_posts rs).length = rs.length ∧
    ∀ i (hi : i < rs.length) (hi2 : i < (to_posts rs).length)
      (hj : rs.length - 1 - i < rs.length),
      (to_posts rs).get ⟨i, hi2⟩ =
        { title := (rs.get ⟨rs.length - 1 - i, hj⟩).title
          slug := to_slug (rs.get ⟨rs.length - 1 - i, hj⟩).title
          path := (rs.get ⟨rs.length - 1 - i, hj⟩).markdown
          hidden := (rs.get ⟨rs.length - 1 - i, hj⟩).hidden
          updated := (rs.get ⟨rs.length - 1 - i, hj⟩).updated } := by
  constructor
  · simp [to_posts]
  · intro i hi hi2 hj
    simp [to_posts, List.get_eq_getElem, List.getElem_reverse, List.getElem_map]

/-- Witness for claim C7 at a concrete input. -/
theorem to_posts_spec_witness :
    (to_posts [regEx]).get ⟨0, by decide⟩ =
      { title := regEx.title, slug := to_slug regEx.title,
        path := regEx.markdown, hidden := regEx.hidden,
        updated := regEx.updated } :=
  (to_posts_spec [regEx]).2 0 (by decide) (by decide) (by decide)

/-- Claim C9: for a successfully loaded non-empty post collection (newest
first), the feed items are built in collection order with each item dated
by its own post updated value, and the channel-level publication date is
the first (newest) post updated value. -/
theorem build_channel_dates (rfc : Int → List Char) (posts : List Post)
    (h : posts ≠ []) :
    (build_channel rfc posts).map RssChannel.pub_date =
      some (rfc (posts.head h).updated) ∧
    (build_channel rfc posts).map (fun ch => ch.items.map RssItem.pub_date) =
      some (posts.map (fun p => rfc p.updated)) ∧
    (build_channel rfc posts).map (fun ch => ch.items.map RssItem.title) =
      some (posts.map Post.title) := by
  cases posts with
  | nil => exact absurd rfl h
  | cons a t =>
    refine ⟨rfl, ?_, ?_⟩ <;>
      simp [build_channel, List.map_map, Function.comp]

/-- Witness for claim C9 at a concrete input. -/
theorem build_channel_dates_witness :
    (build_channel (fun _ => "d".toList) [postA]).map RssChannel.pub_date =
      some "d".toList :=
  (build_channel_dates (fun _ => "d".toList) [postA] (by decide)).1

/-- Claim C8: under the documented invariant that each post slug is the one
computed from its title, the rendered see_also equals the spec
projection — all posts excluding the current one and excluding every
hidden post, in collection order, as (title, slug) pairs — and it never
contains the current post title nor any pair arising from a hidden
post. -/
theorem make_blog_see_also (render : List Char → List Char)
    (fmt : Int → List Char) (current : Post) (all_posts : List Post)
    (markdown : List Char)
    (hinv : ∀ p ∈ all_posts, p.slug = to_slug p.title) :
    (make_blog render fmt current all_posts markdown).see_also =
      see_also_spec current all_posts ∧
    (∀ pr ∈ (make_blog render fmt current all_posts markdown).see_also,
      pr.1 ≠ current.title) ∧
    (∀ pr ∈ (make_blog render fmt current all_posts markdown).see_also,
      ∃ p ∈ all_posts, p.hidden = false ∧ pr = (p.title, p.slug)) := by
  have hfilter : all_posts.filter (fun p => !p.hidden && p.title != current.title) =
      all_posts.filter (fun p => decide (p.hidden = false ∧ p.title ≠ current.title)) := by
    refine List.filter_congr (fun p _ => ?_)
    cases hp : p.hidden <;> by_cases ht : p.title = current.title <;>
      simp [hp, ht]
  refine ⟨?_, ?_, ?_⟩
  · show (all_posts.filter (fun p => !p.hidden && p.title != current.title)).map
        (fun p => (p.title, to_slug p.title)) = see_also_spec current all_posts
    rw [hfilter]
    unfold see_also_spec
    refine List.map_congr_left (fun p hp => ?_)
    rw [hinv p (List.mem_of_mem_filter hp)]
  · intro pr hpr
    obtain ⟨p, hpmem, hpr⟩ := List.mem_map.mp hpr
    obtain ⟨hmem, hq⟩ := List.mem_filter.mp hpmem
    have ht : p.title ≠ current.title := by
      simp only [Bool.and_eq_true, bne_iff_ne] at hq
      exact hq.2
    rw [← hpr]
    exact ht
  · intro pr hpr
    obtain ⟨p, hpmem, hpr⟩ := List.mem_map.mp hpr
    obtain ⟨hmem, hq⟩ := List.mem_filter.mp hpmem
    have hh : p.hidden = false := by
      simp only [Bool.and_eq_true, Bool.not_eq_true'] at hq
      exact hq.1
    exact ⟨p, hmem, hh, by rw [← hpr, hinv p hmem]⟩

/-- Witness for claim C8 at a concrete input. -/
theorem make_blog_see_also_witness :
    (make_blog id (fun _ => []) postB [postA] []).see_also =
      see_also_spec postB [postA] :=
  (make_blog_see_also id (fun _ => []) postB [postA] [] (by decide)).1

/-- A natural number below the surrogate range is a valid scalar value, and
packing it into a character preserves it. -/
theorem char_toNat_ofNat_of_lt {n : Nat} (h : n < 55296) :
    (Char.ofNat n).toNat = n := by
  have hv : n.isValidChar := Or.inl h
  unfold Char.ofNat
  rw [dif_pos hv]
  rfl

/-- toLower leaves any character outside the uppercase ASCII range alone. -/
theorem toLower_eq_of_not_upper {c : Char} (h : ¬(65 ≤ c.toNat ∧ c.toNat ≤ 90)) :
    Char.toLower c = c := by
  simp only [Char.toLower]
  rw [if_neg h]

/-- toLower on an uppercase ASCII letter adds 32 to the codepoint. -/
theorem toLower_toNat_upper {c : Char} (h : 65 ≤ c.toNat ∧ c.toNat ≤ 90) :
    (Char.toLower c).toNat = c.toNat + 32 := by
  simp only [Char.toLower]
  rw [if_pos h, char_toNat_ofNat_of_lt (by omega)]

/-- toLower maps an ASCII letter to a lowercase ASCII letter. -/
theorem isLowerAlpha_toLower {c : Char} (h : isAsciiLetter c = true) :
    isLowerAlpha (Char.toLower c) = true := by
  simp only [isAsciiLetter, Bool.or_eq_true, Bool.and_eq_true,
    decide_eq_true_eq] at h
  rcases h with h | h
  · simp only [isLowerAlpha, Bool.and_eq_true, decide_eq_true_eq,
      toLower_toNat_upper h]
    omega
  · rw [toLower_eq_of_not_upper (by omega)]
    simp only [isLowerAlpha, Bool.and_eq_true, decide_eq_true_eq]
    omega

/-- Only the hyphen is lowered to a hyphen. -/
theorem toLower_eq_dash {c : Char} (h : Char.toLower c = '-') : c = '-' := by
  by_cases hu : 65 ≤ c.toNat ∧ c.toNat ≤ 90
  · exfalso
    have hn := congrArg Char.toNat h
    rw [toLower_toNat_upper hu] at hn
    have hd : ('-').toNat = 45 := rfl
    omega
  · rw [toLower_eq_of_not_upper hu] at h
    exact h

/-- An ASCII letter is not a hyphen. -/
theorem isAsciiLetter_ne_dash {c : Char} (h : isAsciiLetter c = true) :
    (c == '-') = false := by
  rw [beq_eq_false_iff_ne]
  intro hc
  subst hc
  exact absurd h (by decide)

/-- A lowercase letter is a letter. -/
theorem isAsciiLetter_of_lower {c : Char} (h : isLowerAlpha c = true) :
    isAsciiLetter c = true := by
  simp only [isLowerAlpha, Bool.and_eq_true, decide_eq_true_eq] at h
  simp only [isAsciiLetter, Bool.or_eq_true, Bool.and_eq_true,
    decide_eq_true_eq]
  omega

/-- A lowercase letter or hyphen is not whitespace. -/
theorem lowerOrDash_not_ws {c : Char} (h : isLowerAlpha c = true ∨ c = '-') :
    isUnicodeWhitespace c = false := by
  simp only [isUnicodeWhitespace, List.mem_cons, List.not_mem_nil, or_false,
    decide_eq_false_iff_not]
  rcases h with h | h
  · simp only [isLowerAlpha, Bool.and_eq_true, decide_eq_true_eq] at h
    omega
  · have hd : c.toNat = 45 := by subst h; rfl
    omega

/-- toLower fixes a lowercase letter or hyphen. -/
theorem toLower_fix {c : Char} (h : isLowerAlpha c = true ∨ c = '-') :
    Char.toLower c = c := by
  apply toLower_eq_of_not_upper
  rcases h with h | h
  · simp only [isLowerAlpha, Bool.and_eq_true, decide_eq_true_eq] at h
    omega
  · have hd : c.toNat = 45 := by subst h; rfl
    omega

/-- Membership in the dropWhile of a list implies membership in the list. -/
theorem mem_dropWhile {α : Type} {p : α → Bool} {l : List α} {a : α}
    (h : a ∈ l.dropWhile p) : a ∈ l := by
  induction l with
  | nil => simpa using h
  | cons x t ih =>
    rw [List.dropWhile_cons] at h
    split at h
    · exact List.mem_cons_of_mem x (ih h)
    · exact h

/-- The head of a dropWhile does not satisfy the predicate. -/
theorem head?_dropWhile_false {α : Type} (p : α → Bool) (l : List α) {a : α}
    (h : (l.dropWhile p).head? = some a) : p a = false := by
  have hm := List.head?_dropWhile_not p l
  rw [h] at hm
  exact hm

/-- A non-empty dropWhile keeps the last element of the list. -/
theorem getLast?_dropWhile {α : Type} (p : α → Bool) (l : List α)
    (h : l.dropWhile p ≠ []) : (l.dropWhile p).getLast? = l.getLast? := by
  induction l with
  | nil => simp at h
  | cons x t ih =>
    by_cases hpx : p x = true
    · rw [List.dropWhile_cons_of_pos hpx] at h ⊢
      rw [ih h]
      cases t with
      | nil => simp at h
      | cons y ys => rw [List.getLast?_cons_cons]
    · rw [List.dropWhile_cons_of_neg (by simp [hpx])]

/-- dropWhile is the identity when no element satisfies the predicate. -/
theorem dropWhile_eq_self_of_mem {α : Type} {p : α → Bool} {l : List α}
    (h : ∀ a ∈ l, p a = false) : l.dropWhile p = l := by
  cases l with
  | nil => rfl
  | cons x t =>
    exact List.dropWhile_cons_of_neg (by simp [h x (List.mem_cons_self x t)])

/-- dropWhile is the identity when the head does not satisfy the predicate. -/
theorem dropWhile_eq_self_of_head {α : Type} {p : α → Bool} {l : List α}
    (h : ∀ a, l.head? = some a → p a = false) : l.dropWhile p = l := by
  cases l with
  | nil => rfl
  | cons x t => exact List.dropWhile_cons_of_neg (by simp [h x rfl])

/-- The tail of a list without adjacent hyphens has none either. -/
theorem noDD_tail {a : Char} {l : List Char} (h : noDD (a :: l) = true) :
    noDD l = true := by
  cases l with
  | nil => rfl
  | cons b t =>
    unfold noDD at h
    rw [Bool.and_eq_true] at h
    exact h.2

/-- In a list without adjacent hyphens, the first two positions are not both
hyphens. -/
theorem noDD_rel {a b : Char} {l : List Char} (h : noDD (a :: l) = true)
    (hb : l.head? = some b) : ¬(a = '-' ∧ b = '-') := by
  cases l with
  | nil => cases hb
  | cons c t =>
    rw [List.head?_cons, Option.some.injEq] at hb
    subst hb
    unfold noDD at h
    rw [Bool.and_eq_true] at h
    have h1 := h.1
    rintro ⟨ha, hb2⟩
    subst ha
    subst hb2
    simp at h1

/-- Extending on the left preserves the no-adjacent-hyphens property when
the new head does not make a hyphen pair. -/
theorem noDD_cons_of {a : Char} {l : List Char}
    (hrel : ∀ b, l.head? = some b → ¬(a = '-' ∧ b = '-'))
    (h : noDD l = true) : noDD (a :: l) = true := by
  cases l with
  | nil => rfl
  | cons b t =>
    unfold noDD
    rw [Bool.and_eq_true]
    refine ⟨?_, h⟩
    have hab := hrel b rfl
    by_cases ha : a = '-'
    · by_cases hb : b = '-'
      · exact absurd ⟨ha, hb⟩ hab
      · simp [hb]
    · simp [ha]

/-- dropWhile preserves the no-adjacent-hyphens property. -/
theorem noDD_dropWhile {p : Char → Bool} {l : List Char}
    (h : noDD l = true) : noDD (l.dropWhile p) = true := by
  induction l with
  | nil => rfl
  | cons x t ih =>
    rw [List.dropWhile_cons]
    split
    · exact ih (noDD_tail h)
    · exact h

/-- Appending one character preserves the no-adjacent-hyphens property when
it does not create a hyphen pair at the seam. -/
theorem noDD_snoc {a : Char} {l : List Char} (h : noDD l = true)
    (hlast : ∀ b, l.getLast? = some b → ¬(b = '-' ∧ a = '-')) :
    noDD (l ++ [a]) = true := by
  induction l with
  | nil => rfl
  | cons x xs ih =>
    rw [List.cons_append]
    apply noDD_cons_of
    · intro b hb
      cases xs with
      | nil =>
        simp only [List.nil_append, List.head?_cons, Option.some.injEq] at hb
        subst hb
        exact fun hx => hlast x rfl ⟨hx.1, hx.2⟩
      | cons y ys =>
        simp only [List.cons_append, List.head?_cons, Option.some.injEq] at hb
        subst hb
        exact noDD_rel h rfl
    · apply ih (noDD_tail h)
      intro b hb
      apply hlast b
      cases xs with
      | nil => cases hb
      | cons y ys => rw [List.getLast?_cons_cons]; exact hb

/-- Reversal preserves the no-adjacent-hyphens property. -/
theorem noDD_reverse {l : List Char} (h : noDD l = true) :
    noDD l.reverse = true := by
  induction l with
  | nil => rfl
  | cons a t ih =>
    rw [List.reverse_cons]
    apply noDD_snoc (ih (noDD_tail h))
    intro b hb
    rw [List.getLast?_reverse] at hb
    have := noDD_rel h hb
    exact fun hx => this ⟨hx.2, hx.1⟩

/-- Lowercasing preserves the no-adjacent-hyphens property. -/
theorem noDD_map_toLower {l : List Char} (h : noDD l = true) :
    noDD (l.map Char.toLower) = true := by
  induction l with
  | nil => rfl
  | cons a t ih =>
    rw [List.map_cons]
    apply noDD_cons_of
    · intro b hb
      rw [List.head?_map] at hb
      cases hc : t.head? with
      | none => rw [hc] at hb; cases hb
      | some c =>
        rw [hc] at hb
        simp only [Option.map_some', Option.some.injEq] at hb
        subst hb
        rintro ⟨ha, hcb⟩
        exact noDD_rel h hc ⟨toLower_eq_dash ha, toLower_eq_dash hcb⟩
    · exact ih (noDD_tail h)

/-- Membership in a trim implies membership in the original list. -/
theorem trimBy_mem {p : Char → Bool} {l : List Char} {c : Char}
    (h : c ∈ trimBy p l) : c ∈ l := by
  unfold trimBy at h
  rw [List.mem_reverse] at h
  have h2 := mem_dropWhile h
  rw [List.mem_reverse] at h2
  exact mem_dropWhile h2

/-- Trimming preserves the no-adjacent-hyphens property. -/
theorem trimBy_noDD {p : Char → Bool} {l : List Char} (h : noDD l = true) :
    noDD (trimBy p l) = true :=
  noDD_reverse (noDD_dropWhile (noDD_reverse (noDD_dropWhile h)))

/-- Trimming is the identity when no element satisfies the predicate. -/
theorem trimBy_eq_self {p : Char → Bool} {l : List Char}
    (h : ∀ a ∈ l, p a = false) : trimBy p l = l := by
  unfold trimBy
  rw [dropWhile_eq_self_of_mem h,
    dropWhile_eq_self_of_mem (fun a ha => h a (List.mem_reverse.mp ha))]
  exact List.reverse_reverse l

/-- The head of a trimmed list does not satisfy the predicate. -/
theorem trimBy_head? {p : Char → Bool} {l : List Char} {c : Char}
    (h : (trimBy p l).head? = some c) : p c = false := by
  unfold trimBy at h
  rw [List.head?_reverse] at h
  cases hB : (l.dropWhile p).reverse.dropWhile p with
  | nil => rw [hB] at h; cases h
  | cons b bs =>
    have hne : (l.dropWhile p).reverse.dropWhile p ≠ [] := by rw [hB]; simp
    rw [getLast?_dropWhile _ _ hne, List.getLast?_reverse] at h
    exact head?_dropWhile_false p l h

/-- The last element of a trimmed list does not satisfy the predicate. -/
theorem trimBy_getLast? {p : Char → Bool} {l : List Char} {c : Char}
    (h : (trimBy p l).getLast? = some c) : p c = false := by
  unfold trimBy at h
  rw [List.getLast?_reverse] at h
  exact head?_dropWhile_false _ _ h

/-- Trimming is the identity when neither end satisfies the predicate. -/
theorem trimBy_eq_self_of_ends {p : Char → Bool} {l : List Char}
    (h1 : ∀ a, l.head? = some a → p a = false)
    (h2 : ∀ a, l.getLast? = some a → p a = false) : trimBy p l = l := by
  unfold trimBy
  rw [dropWhile_eq_self_of_head h1,
    dropWhile_eq_self_of_head
      (fun a ha => h2 a (by rwa [List.head?_reverse] at ha)),
    List.reverse_reverse]

/-- Every character emitted by the run-collapsing scan is a letter of the
input or the hyphen. -/
theorem collapseAux_mem {l : List Char} :
    ∀ {flag : Bool} {c : Char}, c ∈ collapseAux flag l →
      isAsciiLetter c = true ∨ c = '-' := by
  induction l with
  | nil => intro flag c h; simp [collapseAux] at h
  | cons a t ih =>
    intro flag c h
    by_cases ha : isAsciiLetter a = true
    · simp only [collapseAux, if_pos ha] at h
      rcases List.mem_cons.mp h with h | h
      · subst h; exact Or.inl ha
      · exact ih h
    · cases flag with
      | true =>
        simp only [collapseAux, if_neg ha, if_pos rfl] at h
        exact ih h
      | false =>
        simp only [collapseAux, if_neg ha] at h
        rcases List.mem_cons.mp h with h | h
        · subst h; exact Or.inr rfl
        · exact ih h

/-- After a hyphen was just emitted, the next character emitted by the
run-collapsing scan is a letter. -/
theorem collapseAux_head_true {l : List Char} :
    ∀ {c : Char}, (collapseAux true l).head? = some c →
      isAsciiLetter c = true := by
  induction l with
  | nil => intro c h; cases h
  | cons a t ih =>
    intro c h
    by_cases ha : isAsciiLetter a = true
    · simp only [collapseAux, if_pos ha, List.head?_cons,
        Option.some.injEq] at h
      subst h
      exact ha
    · simp only [collapseAux, if_neg ha, if_pos rfl] at h
      exact ih h

/-- The run-collapsing scan never emits two adjacent hyphens. -/
theorem collapseAux_noDD {l : List Char} :
    ∀ {flag : Bool}, noDD (collapseAux flag l) = true := by
  induction l with
  | nil => intro flag; rfl
  | cons a t ih =>
    intro flag
    by_cases ha : isAsciiLetter a = true
    · simp only [collapseAux, if_pos ha]
      apply noDD_cons_of
      · intro b hb
        rintro ⟨h1, h2⟩
        subst h1
        exact absurd ha (by decide)
      · exact ih
    · cases flag with
      | true => simp only [collapseAux, if_neg ha, if_pos rfl]; exact ih
      | false =>
        simp only [collapseAux, if_neg ha]
        apply noDD_cons_of
        · intro b hb
          rintro ⟨h1, h2⟩
          subst h2
          exact absurd (collapseAux_head_true hb) (by decide)
        · exact ih

/-- On a clean list — letters and hyphens only, no adjacent hyphens — the
run-collapsing scan is the identity; with the in-run flag set it is the
identity provided the head is not a hyphen. -/
theorem collapseAux_clean {l : List Char}
    (hmem : ∀ c ∈ l, isAsciiLetter c = true ∨ c = '-')
    (hnodd : noDD l = true) :
    collapseAux false l = l ∧
    ((∀ hd, l.head? = some hd → hd ≠ '-') → collapseAux true l = l) := by
  induction l with
  | nil => exact ⟨rfl, fun _ => rfl⟩
  | cons a t ih =>
    have hmt : ∀ c ∈ t, isAsciiLetter c = true ∨ c = '-' :=
      fun c hc => hmem c (List.mem_cons_of_mem a hc)
    obtain ⟨ih1, ih2⟩ := ih hmt (noDD_tail hnodd)
    rcases hmem a (List.mem_cons_self a t) with ha | ha
    · constructor
      · simp only [collapseAux, if_pos ha, ih1]
      · intro hhd
        simp only [collapseAux, if_pos ha, ih1]
    · subst ha
      have hna : isAsciiLetter '-' = true → False := by decide
      have hhead : ∀ hd, t.head? = some hd → hd ≠ '-' := by
        intro hd hhd hdash
        subst hdash
        exact noDD_rel hnodd hhd ⟨rfl, rfl⟩
      constructor
      · simp only [collapseAux, if_neg hna, if_neg Bool.false_ne_true]
        rw [ih2 hhead]
      · intro hhd
        exact absurd rfl (hhd '-' rfl)

/-- dedupDash moves over a non-hyphen head. -/
theorem dedupDash_cons_ne {a : Char} (l : List Char) (ha : (a == '-') = false) :
    dedupDash (a :: l) = a :: dedupDash l := by
  cases l with
  | nil => rfl
  | cons b t =>
    simp only [dedupDash]
    rw [if_neg (by simp [ha])]

/-- dedupDash merges a leading hyphen pair. -/
theorem dedupDash_dashes (l : List Char) :
    dedupDash ('-' :: '-' :: l) = dedupDash ('-' :: l) := rfl

/-- dedupDash moves over a leading hyphen followed by a non-hyphen. -/
theorem dedupDash_dash_ne {a : Char} (l : List Char) (ha : (a == '-') = false) :
    dedupDash ('-' :: a :: l) = '-' :: dedupDash (a :: l) := by
  simp only [dedupDash]
  rw [if_neg (by simp [ha])]

/-- The run-collapsing scan agrees with the spec formulation: map every
non-letter to a hyphen, then merge hyphen runs. -/
theorem collapseAux_eq_dedup (l : List Char) :
    collapseAux false l = dedupDash (l.map dashify) ∧
    '-' :: collapseAux true l = dedupDash ('-' :: l.map dashify) := by
  induction l with
  | nil => exact ⟨rfl, rfl⟩
  | cons a t ih =>
    obtain ⟨ih1, ih2⟩ := ih
    by_cases ha : isAsciiLetter a = true
    · have hda : dashify a = a := by simp [dashify, ha]
      have hane : (a == '-') = false := isAsciiLetter_ne_dash ha
      constructor
      · rw [List.map_cons, hda, dedupDash_cons_ne _ hane]
        simp only [collapseAux, if_pos ha, ih1]
      · rw [List.map_cons, hda]
        rw [dedupDash_dash_ne _ hane, dedupDash_cons_ne _ hane]
        simp only [collapseAux, if_pos ha, ih1]
    · have hda : dashify a = '-' := by simp [dashify, ha]
      constructor
      · rw [List.map_cons, hda]
        simp only [collapseAux, if_neg ha]
        exact ih2
      · rw [List.map_cons, hda, dedupDash_dashes]
        simp only [collapseAux, if_neg ha, if_pos rfl]
        exact ih2

/-- Every character of a slug is a lowercase ASCII letter or a hyphen. -/
theorem to_slug_mem (raw : List Char) :
    ∀ c ∈ to_slug raw, isLowerAlpha c = true ∨ c = '-' := by
  intro c hc
  unfold to_slug at hc
  obtain ⟨d, hd, hcd⟩ := List.mem_map.mp hc
  subst hcd
  unfold trimChar at hd
  have hdm := trimBy_mem hd
  unfold collapseRuns at hdm
  rcases collapseAux_mem hdm with h | h
  · exact Or.inl (isLowerAlpha_toLower h)
  · subst h
    exact Or.inr (toLower_fix (Or.inr rfl))

/-- A slug holds no two adjacent hyphens. -/
theorem to_slug_noDD (raw : List Char) : noDD (to_slug raw) = true := by
  unfold to_slug trimChar collapseRuns
  exact noDD_map_toLower (trimBy_noDD collapseAux_noDD)

/-- A slug does not start with a hyphen. -/
theorem to_slug_head (raw : List Char) : (to_slug raw).head? ≠ some '-' := by
  intro h
  unfold to_slug at h
  rw [List.head?_map] at h
  cases ht : (trimChar '-' (collapseRuns (trimWs raw))).head? with
  | none => rw [ht] at h; cases h
  | some d =>
    rw [ht] at h
    simp only [Option.map_some', Option.some.injEq] at h
    have hdd := toLower_eq_dash h
    subst hdd
    unfold trimChar at ht
    have hf := trimBy_head? ht
    simp at hf

/-- A slug does not end with a hyphen. -/
theorem to_slug_last (raw : List Char) : (to_slug raw).getLast? ≠ some '-' := by
  intro h
  unfold to_slug at h
  rw [List.getLast?_map] at h
  cases ht : (trimChar '-' (collapseRuns (trimWs raw))).getLast? with
  | none => rw [ht] at h; cases h
  | some d =>
    rw [ht] at h
    simp only [Option.map_some', Option.some.injEq] at h
    have hdd := toLower_eq_dash h
    subst hdd
    unfold trimChar at ht
    have hf := trimBy_getLast? ht
    simp at hf

/-- Claim C5: for every title, the slug contains only lowercase ASCII
letters and hyphens and never starts or ends with a hyphen, and it equals
the spec algorithm: trim surrounding whitespace, replace every maximal
run of non-ASCII-letter characters with a single hyphen, trim hyphens,
lowercase. -/
theorem to_slug_spec_props (raw : List Char) :
    (∀ c ∈ to_slug raw, isLowerAlpha c = true ∨ c = '-') ∧
    (to_slug raw).head? ≠ some '-' ∧
    (to_slug raw).getLast? ≠ some '-' ∧
    to_slug raw = slug_spec raw := by
  refine ⟨to_slug_mem raw, to_slug_head raw, to_slug_last raw, ?_⟩
  unfold to_slug slug_spec collapseRuns
  rw [(collapseAux_eq_dedup (trimWs raw)).1]

/-- Witness for claim C5 at a concrete input. -/
theorem to_slug_spec_props_witness :
    to_slug "Hello, World!".toList = slug_spec "Hello, World!".toList :=
  (to_slug_spec_props "Hello, World!".toList).2.2.2

/-- Claim C6: the slug function is idempotent — feeding a slug back in
returns it unchanged. -/
theorem to_slug_idem (raw : List Char) :
    to_slug (to_slug raw) = to_slug raw := by
  have hmem := to_slug_mem raw
  have hnodd := to_slug_noDD raw
  have hhead := to_slug_head raw
  have hlast := to_slug_last raw
  have h1 : trimWs (to_slug raw) = to_slug raw := by
    unfold trimWs
    exact trimBy_eq_self (fun a ha => lowerOrDash_not_ws (hmem a ha))
  have h2 : collapseRuns (to_slug raw) = to_slug raw := by
    unfold collapseRuns
    exact (collapseAux_clean
      (fun c hc =>
        (hmem c hc).elim (fun h => Or.inl (isAsciiLetter_of_lower h)) Or.inr)
      hnodd).1
  have h3 : trimChar '-' (to_slug raw) = to_slug raw := by
    unfold trimChar
    apply trimBy_eq_self_of_ends
    · intro a ha
      rw [beq_eq_false_iff_ne]
      intro hda
      subst hda
      exact hhead ha
    · intro a ha
      rw [beq_eq_false_iff_ne]
      intro hda
      subst hda
      exact hlast ha
  have h4 : (to_slug raw).map Char.toLower = to_slug raw := by
    have hid : (to_slug raw).map Char.toLower = (to_slug raw).map id :=
      List.map_congr_left (fun a ha => toLower_fix (hmem a ha))
    rw [hid, List.map_id]
  calc to_slug (to_slug raw)
      = (trimChar '-' (collapseRuns (trimWs (to_slug raw)))).map Char.toLower := rfl
    _ = to_slug raw := by rw [h1, h2, h3, h4]

end BlogRust
